import Mathlib

/-!
Verification of the optionslib quantitative-finance library against its
natural-language specification.  The definitions below are shallow embeddings
of the Python source: dates are triples of integers with explicit calendar
arithmetic, floats are modelled by exact rationals (or reals where
transcendental functions appear), Python exceptions are modelled by Option
(or by an explicit result type where the distinction between raising and
returning None matters), and unbounded loops and recursion carry an explicit
fuel argument, with fuel exhaustion mapping to non-termination or failure.
-/

namespace OptionsLib

/-! ### Date model

Python `datetime.date` values are triples (year, month, day).  Chronological
comparison is lexicographic on the triple; day differences go through a
rata-die (serial day number) conversion, matching `(d2 - d1).days`.
-/

structure Date where
  year : Int
  month : Int
  day : Int
deriving DecidableEq

/-- Embeds `time_utils.is_leap_year`: Gregorian leap-year rule. -/
def isLeapYear (y : Int) : Bool :=
  (y.emod 4 == 0 && !(y.emod 100 == 0)) || y.emod 400 == 0

/-- Embeds `time_utils.length_of_year`. -/
def lengthOfYear (y : Int) : Int :=
  if isLeapYear y then 366 else 365

/-- Number of days in a Gregorian month (as `calendar.monthrange` reports). -/
def daysInMonth (y m : Int) : Int :=
  if m = 2 then (if isLeapYear y then 29 else 28)
  else if m = 4 ∨ m = 6 ∨ m = 9 ∨ m = 11 then 30
  else 31

/-- Validity of a (year, month, day) triple, as `datetime.date` checks it. -/
def validDate (y m d : Int) : Bool :=
  1 ≤ m && m ≤ 12 && 1 ≤ d && d ≤ daysInMonth y m

/-- Serial day number of a date, with 1970-01-01 mapping to 0 (the classic
days-from-civil algorithm).  Differences of serial numbers embed
Python's `(d2 - d1).days`. -/
def toRD (d : Date) : Int :=
  let y := if d.month ≤ 2 then d.year - 1 else d.year
  let era := y.fdiv 400
  let yoe := y - era * 400
  let mp := (d.month + 9).emod 12
  let doy := (153 * mp + 2).fdiv 5 + d.day - 1
  let doe := yoe * 365 + yoe.fdiv 4 - yoe.fdiv 100 + doy
  era * 146097 + doe - 719468

/-- Inverse of `toRD` (civil-from-days). -/
def fromRD (z0 : Int) : Date :=
  let z := z0 + 719468
  let era := z.fdiv 146097
  let doe := z - era * 146097
  let yoe := (doe - doe.fdiv 1460 + doe.fdiv 36524 - doe.fdiv 146096).fdiv 365
  let y := yoe + era * 400
  let doy := doe - (365 * yoe + yoe.fdiv 4 - yoe.fdiv 100)
  let mp := (5 * doy + 2).fdiv 153
  let dd := doy - (153 * mp + 2).fdiv 5 + 1
  let mm := if mp < 10 then mp + 3 else mp - 9
  ⟨if mm ≤ 2 then y + 1 else y, mm, dd⟩

/-- Chronological strict order on dates (Python date `<`). -/
def Date.blt (a b : Date) : Bool :=
  a.year < b.year ||
    (a.year == b.year &&
      (a.month < b.month || (a.month == b.month && a.day < b.day)))

/-- Chronological non-strict order on dates (Python date `<=`). -/
def Date.ble (a b : Date) : Bool :=
  a.blt b || a == b

/-- Embeds `(d2 - d1).days` on Python dates. -/
def daysBetween (d1 d2 : Date) : Int :=
  toRD d2 - toRD d1

/-- Embeds `start + timedelta(days=n)`. -/
def addDays (d : Date) (n : Int) : Date :=
  fromRD (toRD d + n)

/-- Python `date.weekday()`: Monday is 0, Sunday is 6. -/
def weekday (d : Date) : Int :=
  (toRD d + 3).emod 7

/-! ### Enumerations used by the date utilities and the schedule builder -/

inductive BusinessDayConvention where
  | noAdjust
  | following
  | modifiedFollowing
  | preceding
  | modifiedPreceding
deriving DecidableEq

inductive PeriodUnit where
  | days
  | businessDays
  | months
  | years
deriving DecidableEq

inductive StubConv where
  | none
  | shortInitial
  | longInitial
  | shortFinal
  | longFinal
  | both
deriving DecidableEq

/-! ### Period arithmetic (time_utils.py)

The Python functions `add_months` and `add_years` retry with a decremented
day after a `ValueError`; `add_period` with business days walks one calendar
day at a time.  Both recursions are unbounded in Python, so the embeddings
take a fuel argument; `none` covers both a raised exception and a
non-terminating run.
-/

/-- Embeds `time_utils.add_months`, including its `(month + months) % 13`
arithmetic and the decrement-day-and-retry handler.  A month value outside
1..12 makes the construction fail on every retry, so the recursion walks the
day down to 0 and the final construction error propagates (`none`). -/
def addMonths : Nat → Date → Int → Option Date
  | 0, _, _ => Option.none
  | fuel + 1, start, months =>
    let yearRoll := (start.month + months - 1).fdiv 12
    let m := (start.month + months).emod 13 + yearRoll
    if validDate (start.year + yearRoll) m start.day then
      some ⟨start.year + yearRoll, m, start.day⟩
    else if 1 ≤ start.day - 1 then
      addMonths fuel ⟨start.year, start.month, start.day - 1⟩ months
    else Option.none

/-- Embeds `time_utils.add_years` with the same retry pattern. -/
def addYears : Nat → Date → Int → Option Date
  | 0, _, _ => Option.none
  | fuel + 1, start, years =>
    if validDate (start.year + years) start.month start.day then
      some ⟨start.year + years, start.month, start.day⟩
    else if 1 ≤ start.day - 1 then
      addYears fuel ⟨start.year, start.month, start.day - 1⟩ years
    else Option.none

/-- Embeds the `Period.BUSINESS_DAYS` branch of `time_utils.add_period`:
a signed unit-step walk that decrements the remaining count only when the
step lands on a business day.  The holiday calendar is abstracted by its
`is_holiday` predicate. -/
def addBusDays (isHol : Date → Bool) : Nat → Int → Date → Option Date
  | 0, _, _ => Option.none
  | fuel + 1, len, start =>
    if len = 0 then some start
    else
      let next := addDays start (if 0 < len then 1 else -1)
      if isHol next then addBusDays isHol fuel len next
      else addBusDays isHol fuel (len + (if 0 < len then -1 else 1)) next

/-- Embeds `time_utils.add_period`, dispatching on the period unit. -/
def addPeriodO (fuel : Nat) (isHol : Date → Bool) (len : Int)
    (u : PeriodUnit) (start : Date) : Option Date :=
  match u with
  | .days => some (addDays start len)
  | .businessDays => addBusDays isHol fuel len start
  | .months => addMonths fuel start len
  | .years => addYears fuel start len

/-- Embeds `time_utils.adjust`.  Python computes both the following and the
preceding business day eagerly before branching on the convention. -/
def adjustO (isHol : Date → Bool) (fuel : Nat)
    (bdc : BusinessDayConvention) (d : Date) : Option Date :=
  if isHol d then
    match addBusDays isHol fuel 1 d, addBusDays isHol fuel (-1) d with
    | some fol, some pre =>
      match bdc with
      | .noAdjust => some d
      | .following => some fol
      | .modifiedFollowing =>
          if fol.month ≠ d.month then some pre else some fol
      | .preceding => some pre
      | .modifiedPreceding =>
          if pre.month ≠ d.month then some fol else some pre
    | _, _ => Option.none
  else some d

/-! ### Day-count conventions (day_count_basis.py) -/

/-- Embeds `ActualActual.year_fraction` exactly as the source computes it:
for dates in different calendar years the middle term is the plain integer
year difference `y_2 - y_1`. -/
def actActYearFraction (d1 d2 : Date) : ℚ :=
  if d1.year = d2.year then
    (daysBetween d1 d2 : ℚ) / (lengthOfYear d1.year : ℚ)
  else
    (daysBetween d1 ⟨d1.year + 1, 1, 1⟩ : ℚ) / (lengthOfYear d1.year : ℚ)
      + ((d2.year - d1.year : Int) : ℚ)
      + (daysBetween ⟨d2.year, 1, 1⟩ d2 : ℚ) / (lengthOfYear d2.year : ℚ)

/-- Modelled from the spec and claim C1: the reference ACT/ACT split-year
formula, whose middle term counts only the complete intermediate years,
`y_2 - y_1 - 1`. -/
def actActClaimFormula (d1 d2 : Date) : ℚ :=
  (daysBetween d1 ⟨d1.year + 1, 1, 1⟩ : ℚ) / (lengthOfYear d1.year : ℚ)
    + ((d2.year - d1.year - 1 : Int) : ℚ)
    + (daysBetween ⟨d2.year, 1, 1⟩ d2 : ℚ) / (lengthOfYear d2.year : ℚ)

/-! ### Linear interpolation (interpolators.py)

LinearInterpolator is embedded twice, once for a numeric (rational) x-axis
and once for a date-valued x-axis where deltas are converted to day counts
divided by 365 before the division, exactly as the Python
`__convert_to_float` helper does.  Construction-time validation (non-empty,
sorted, equal lengths) is part of the wrapper; a raised error is `none`.
-/

/-- Embeds the scan in `LinearInterpolator.__find_index`: the first index i
with xs[i] <= x < xs[i+1], on a rational axis. -/
def findBracketQ (x : ℚ) : List ℚ → Nat → Option Nat
  | b0 :: b1 :: rest, i =>
    if b0 ≤ x ∧ x < b1 then some i else findBracketQ x (b1 :: rest) (i + 1)
  | _, _ => Option.none

/-- Embeds `LinearInterpolator.__call__` on a rational axis (index lookup,
front/back extrapolation branches, interior linear formula). -/
def interpAtQ (xs ys : List ℚ) (extrapolate : Bool) (x : ℚ) : Option ℚ :=
  match xs with
  | [] => Option.none
  | x0 :: _ =>
    if x < x0 then
      if extrapolate then ys[0]? else Option.none
    else
      match findBracketQ x xs 0 with
      | some i =>
        match xs[i]?, xs[i + 1]?, ys[i]?, ys[i + 1]? with
        | some xi, some xi1, some yi, some yi1 =>
            some (yi + (x - xi) * ((yi1 - yi) / (xi1 - xi)))
        | _, _, _, _ => Option.none
      | Option.none =>
        if extrapolate then ys.getLast? else Option.none

/-- Embeds the `Interpolator` attrs validator: x values non-decreasing
(the Python check only rejects a strictly decreasing adjacent pair). -/
def sortedNonDecQ : List ℚ → Bool
  | a :: b :: rest => !(b < a : Bool) && sortedNonDecQ (b :: rest)
  | _ => true

/-- Embeds constructing a LinearInterpolator on rational knots and querying
it at x: validation failures and range errors are `none`. -/
def linInterpQ (xs ys : List ℚ) (extrapolate : Bool) (x : ℚ) : Option ℚ :=
  if xs.isEmpty then Option.none
  else if !sortedNonDecQ xs then Option.none
  else if ys.length ≠ xs.length then Option.none
  else interpAtQ xs ys extrapolate x

/-! ### Schedule builder (schedule.py)

The Schedule class is embedded as a pipeline `buildSchedulePeriods` mirroring
`build_schedule_periods` called on a freshly constructed Schedule: attrs
validators, lazy calculation of the first regular start and last regular end
dates (with the consistency check against explicitly supplied values),
`pre_validation`, and the stub-convention-specific builders.  The roll
convention field is `Option Int` (None or the enum's integer value); in
`valid_roll_day` Python compares the raw field, and every comparison against
None is False.  The holiday calendar is abstracted by its `is_holiday`
predicate, `afuel` bounds the inner date-arithmetic recursions and `fuel`
bounds the generation loops.
-/

structure SchedulePeriod where
  ustart : Date
  uend : Date
  astart : Date
  aend : Date
deriving DecidableEq

/-- Embeds `Schedule.valid_roll_day` for a resolved (non-None) roll value:
day 30 also accepts Feb 28/29, day 29 accepts Feb 28 in non-leap years, and
EOM (enum value 31) accepts day 30 in months with fewer than 31 days. -/
def validRollDay (roll : Int) (d : Date) : Bool :=
  d.day == roll
    || (roll == 30 && d.month == 2 && (d.day == 28 || d.day == 29))
    || (roll == 29 && d.month == 2 && d.day == 28 && !isLeapYear d.year)
    || (roll == 31
        && (d.month == 2 || d.month == 4 || d.month == 6 || d.month == 9
            || d.month == 11)
        && d.day == 30)

/-- Embeds `Schedule.valid_roll_day` on the raw field: with an unset (None)
roll convention every comparison in the Python function is False. -/
def validRollDayOpt (rollOpt : Option Int) (d : Date) : Bool :=
  match rollOpt with
  | Option.none => false
  | some r => validRollDay r d

/-- Embeds the clamping step of the builder loops: if the roll day fits in
the target month, the period boundary day is replaced by the roll day
(constructing the date fails if the roll value is not a positive day). -/
def clampRoll (roll : Int) (d : Date) : Option Date :=
  if roll ≤ daysInMonth d.year d.month then
    if 1 ≤ roll then some ⟨d.year, d.month, roll⟩ else Option.none
  else some d

/-- Embeds the while-loop of `Schedule.build_short_final` (the identical loop
also sits at the core of `build_both`): walk forward from `current` while it
is before `lastReg`, generating one clamped, adjusted, roll-checked period
per step.  Returns the generated periods and the final value of `current`. -/
def sfLoop (isHol : Date → Bool) (bdc : BusinessDayConvention) (afuel : Nat)
    (fn : Int) (fu : PeriodUnit) (roll : Int) (lastReg : Date) :
    Nat → Date → Option (List SchedulePeriod × Date)
  | 0, _ => Option.none
  | fuel + 1, current =>
    if current.blt lastReg then
      (addPeriodO afuel isHol fn fu current).bind fun ue0 =>
        (clampRoll roll ue0).bind fun ue =>
          (adjustO isHol afuel bdc current).bind fun adjS =>
            (adjustO isHol afuel bdc ue).bind fun adjE =>
              if validRollDay roll ue then
                (sfLoop isHol bdc afuel fn fu roll lastReg fuel ue).bind
                  fun rf =>
                    some ((⟨current, ue, adjS, adjE⟩ : SchedulePeriod) :: rf.1,
                          rf.2)
              else Option.none
    else some ([], current)

/-- Embeds `Schedule.build_short_final`: run the forward loop from the start
date, then append the final (possibly short, not roll-checked) stub period
from the last regular end date to the schedule end date. -/
def buildShortFinal (isHol : Date → Bool) (afuel fuel : Nat)
    (bdc : BusinessDayConvention) (fn : Int) (fu : PeriodUnit) (roll : Int)
    (start firstReg endD lastReg : Date) : Option (List SchedulePeriod) :=
  let current0 := if start ≠ firstReg then start else firstReg
  match sfLoop isHol bdc afuel fn fu roll lastReg fuel current0 with
  | Option.none => Option.none
  | some (regs, _) =>
    match adjustO isHol afuel bdc lastReg, adjustO isHol afuel bdc endD with
    | some adjLR, some adjE =>
        some (regs ++ [(⟨lastReg, endD, adjLR, adjE⟩ : SchedulePeriod)])
    | _, _ => Option.none

/-- Embeds the while-loop of `Schedule.build_short_initial`: walk backward
from `current` while it is after `firstReg`. -/
def siLoop (isHol : Date → Bool) (bdc : BusinessDayConvention) (afuel : Nat)
    (fn : Int) (fu : PeriodUnit) (roll : Int) (firstReg : Date) :
    Nat → Date → Option (List SchedulePeriod × Date)
  | 0, _ => Option.none
  | fuel + 1, current =>
    if firstReg.blt current then
      match addPeriodO afuel isHol (-fn) fu current with
      | Option.none => Option.none
      | some us0 =>
        match clampRoll roll us0 with
        | Option.none => Option.none
        | some us =>
          match adjustO isHol afuel bdc us, adjustO isHol afuel bdc current with
          | some adjS, some adjE =>
            if validRollDay roll us then
              match siLoop isHol bdc afuel fn fu roll firstReg fuel us with
              | some (rest, fin) => some (⟨us, current, adjS, adjE⟩ :: rest, fin)
              | Option.none => Option.none
            else Option.none
          | _, _ => Option.none
    else some ([], current)

/-- Embeds `Schedule.build_short_initial`: run the backward loop from the end
date, append the initial stub period, then reverse the accumulated list. -/
def buildShortInitial (isHol : Date → Bool) (afuel fuel : Nat)
    (bdc : BusinessDayConvention) (fn : Int) (fu : PeriodUnit) (roll : Int)
    (start firstReg endD lastReg : Date) : Option (List SchedulePeriod) :=
  let current0 := if endD ≠ lastReg then endD else lastReg
  match siLoop isHol bdc afuel fn fu roll firstReg fuel current0 with
  | Option.none => Option.none
  | some (regs, _) =>
    match adjustO isHol afuel bdc firstReg, adjustO isHol afuel bdc start with
    | some adjFR, some adjS =>
        some ((regs ++ [(⟨start, firstReg, adjS, adjFR⟩ : SchedulePeriod)]).reverse)
    | _, _ => Option.none

/-- Embeds `Schedule.build_both`: an optional leading stub, the forward
regular-period loop (which must land exactly on the last regular end date),
and an optional trailing stub. -/
def buildBoth (isHol : Date → Bool) (afuel fuel : Nat)
    (bdc : BusinessDayConvention) (fn : Int) (fu : PeriodUnit) (roll : Int)
    (start firstReg endD lastReg : Date) : Option (List SchedulePeriod) :=
  match adjustO isHol afuel bdc start, adjustO isHol afuel bdc firstReg with
  | some adjS, some adjFR =>
    let lead := if start ≠ firstReg then [(⟨start, firstReg, adjS, adjFR⟩ : SchedulePeriod)] else []
    match sfLoop isHol bdc afuel fn fu roll lastReg fuel firstReg with
    | Option.none => Option.none
    | some (regs, fin) =>
      if fin = lastReg then
        match adjustO isHol afuel bdc lastReg, adjustO isHol afuel bdc endD with
        | some adjLR, some adjE =>
          let trail := if lastReg ≠ endD then [(⟨lastReg, endD, adjLR, adjE⟩ : SchedulePeriod)] else []
          some (lead ++ regs ++ trail)
        | _, _ => Option.none
      else Option.none
  | _, _ => Option.none

/-- Embeds the `loop_forward` helper of
`Schedule.calculate_last_regular_end_date`: step forward from the start date
by one frequency per iteration until reaching or passing the end date,
remembering the previous date (`none` inside the result if the loop body
never ran). -/
def loopForwardAux (isHol : Date → Bool) (afuel : Nat) (fn : Int)
    (fu : PeriodUnit) (endD : Date) :
    Nat → Date → Option Date → Option (Option Date)
  | 0, _, _ => Option.none
  | fuel + 1, dateI, prev =>
    if dateI.blt endD then
      match addPeriodO afuel isHol fn fu dateI with
      | Option.none => Option.none
      | some nxt => loopForwardAux isHol afuel fn fu endD fuel nxt (some dateI)
    else some prev

/-- Embeds the `loop_back` helper of
`Schedule.calculate_first_regular_start_date`. -/
def loopBackAux (isHol : Date → Bool) (afuel : Nat) (fn : Int)
    (fu : PeriodUnit) (startD : Date) :
    Nat → Date → Option Date → Option (Option Date)
  | 0, _, _ => Option.none
  | fuel + 1, dateI, succ =>
    if startD.blt dateI then
      match addPeriodO afuel isHol (-fn) fu dateI with
      | Option.none => Option.none
      | some nxt => loopBackAux isHol afuel fn fu startD fuel nxt (some dateI)
    else some succ

/-- Embeds the tail of both calculate methods: an explicitly supplied value
must coincide with the calculated one, otherwise a ValueError is raised. -/
def checkGiven (given : Option Date) (v : Date) : Option Date :=
  match given with
  | Option.none => some v
  | some g => if g = v then some v else Option.none

/-- Embeds `Schedule.calculate_first_regular_start_date` (run on first
access).  A calculated Python-None value leads to a crash as soon as it is
used, which the pipeline models as overall failure. -/
def calcFirstRegularStartDate (isHol : Date → Bool) (afuel fuel : Nat)
    (fn : Int) (fu : PeriodUnit) (stub : StubConv) (start endD : Date)
    (givenFirst : Option Date) : Option Date :=
  match stub with
  | .none | .shortFinal | .longFinal => checkGiven givenFirst start
  | .shortInitial =>
    match loopBackAux isHol afuel fn fu start fuel endD Option.none with
    | some (some v) => checkGiven givenFirst v
    | _ => Option.none
  | .longInitial =>
    match loopBackAux isHol afuel fn fu start fuel endD Option.none with
    | some (some v) =>
      match addPeriodO afuel isHol fn fu v with
      | some w => checkGiven givenFirst w
      | Option.none => Option.none
    | _ => Option.none
  | .both =>
    match givenFirst with
    | some g => some g
    | Option.none => Option.none

/-- Embeds `Schedule.calculate_last_regular_end_date`. -/
def calcLastRegularEndDate (isHol : Date → Bool) (afuel fuel : Nat)
    (fn : Int) (fu : PeriodUnit) (stub : StubConv) (start endD : Date)
    (givenLast : Option Date) : Option Date :=
  match stub with
  | .none | .shortInitial | .longInitial => checkGiven givenLast endD
  | .shortFinal =>
    match loopForwardAux isHol afuel fn fu endD fuel start Option.none with
    | some (some v) => checkGiven givenLast v
    | _ => Option.none
  | .longFinal =>
    match loopForwardAux isHol afuel fn fu endD fuel start Option.none with
    | some (some v) =>
      match addPeriodO afuel isHol (-fn) fu v with
      | some w => checkGiven givenLast w
      | Option.none => Option.none
    | _ => Option.none
  | .both =>
    match givenLast with
    | some g => some g
    | Option.none => Option.none

/-- Embeds `Schedule.pre_validation`: the three ordering checks followed by
the stub-convention-specific roll-day checks on the raw roll field. -/
def preValidationOk (rollOpt : Option Int) (stub : StubConv)
    (start endD firstReg lastReg : Date) : Bool :=
  lastReg.ble endD && firstReg.ble lastReg && start.ble firstReg &&
    (match stub with
     | .none =>
        validRollDayOpt rollOpt start && validRollDayOpt rollOpt lastReg
          && validRollDayOpt rollOpt firstReg && validRollDayOpt rollOpt endD
     | .shortInitial | .longInitial =>
        validRollDayOpt rollOpt endD && validRollDayOpt rollOpt lastReg
          && validRollDayOpt rollOpt firstReg
     | .shortFinal | .longFinal =>
        validRollDayOpt rollOpt start && validRollDayOpt rollOpt lastReg
          && validRollDayOpt rollOpt firstReg
     | .both =>
        validRollDayOpt rollOpt firstReg && validRollDayOpt rollOpt lastReg)

/-- Embeds `Schedule.calculate_roll_convention` combined with the property
getter: an explicitly supplied roll convention wins, otherwise it is derived
from the stub convention. -/
def resolveRoll (rollOpt : Option Int) (stub : StubConv)
    (start endD firstReg : Date) : Int :=
  match rollOpt with
  | some r => r
  | Option.none =>
    match stub with
    | .none => start.day
    | .shortInitial | .longInitial => endD.day
    | .shortFinal | .longFinal => start.day
    | .both => firstReg.day

/-- Embeds `Schedule.build_schedule_periods` on a freshly constructed
Schedule: attrs validators, lazy date calculations, `pre_validation`, then
the builder for the stub convention (the conventions without a builder leave
the period list empty). -/
def buildSchedulePeriods (isHol : Date → Bool) (afuel fuel : Nat)
    (bdc : BusinessDayConvention) (fn : Int) (fu : PeriodUnit)
    (rollOpt : Option Int) (stub : StubConv) (start endD : Date)
    (givenFirst givenLast : Option Date) : Option (List SchedulePeriod) :=
  if endD.blt start then Option.none
  else if stub = .both ∧ (givenFirst = Option.none ∨ givenLast = Option.none) then
    Option.none
  else
    match calcFirstRegularStartDate isHol afuel fuel fn fu stub start endD givenFirst,
          calcLastRegularEndDate isHol afuel fuel fn fu stub start endD givenLast with
    | some firstReg, some lastReg =>
      if preValidationOk rollOpt stub start endD firstReg lastReg then
        let roll := resolveRoll rollOpt stub start endD firstReg
        match stub with
        | .shortFinal =>
            buildShortFinal isHol afuel fuel bdc fn fu roll start firstReg endD lastReg
        | .shortInitial =>
            buildShortInitial isHol afuel fuel bdc fn fu roll start firstReg endD lastReg
        | .both =>
            buildBoth isHol afuel fuel bdc fn fu roll start firstReg endD lastReg
        | _ => some []
      else Option.none
    | _, _ => Option.none

/-- Contiguity of consecutive periods: each period's unadjusted end date is
the next period's unadjusted start date. -/
def contiguousB : List SchedulePeriod → Bool
  | a :: b :: rest => a.uend == b.ustart && contiguousB (b :: rest)
  | _ => true

/-- Holiday predicate of a calendar with no holidays (adjustment is then the
identity on every date). -/
def noHols : Date → Bool := fun _ => false

/-- Holiday predicate of a weekend-only calendar with the default Saturday
and Sunday weekend days. -/
def weekendOnly : Date → Bool := fun d => weekday d == 5 || weekday d == 6

/-- Periods produced by the overshoot schedule used to refute claim C2:
a quarterly DAY_30 schedule whose regular walk lands on Feb 29 of a leap
year (a valid DAY_30 roll day) while the last regular end date computed by
loop_forward is Feb 28, so the walk jumps past it and the final stub period
starts one day before the previous period ends. -/
def c2OvershootPeriods : List SchedulePeriod :=
  [⟨⟨2022, 11, 30⟩, ⟨2023, 2, 28⟩, ⟨2022, 11, 30⟩, ⟨2023, 2, 28⟩⟩,
   ⟨⟨2023, 2, 28⟩, ⟨2023, 5, 30⟩, ⟨2023, 2, 28⟩, ⟨2023, 5, 30⟩⟩,
   ⟨⟨2023, 5, 30⟩, ⟨2023, 8, 30⟩, ⟨2023, 5, 30⟩, ⟨2023, 8, 30⟩⟩,
   ⟨⟨2023, 8, 30⟩, ⟨2023, 11, 30⟩, ⟨2023, 8, 30⟩, ⟨2023, 11, 30⟩⟩,
   ⟨⟨2023, 11, 30⟩, ⟨2024, 2, 29⟩, ⟨2023, 11, 30⟩, ⟨2024, 2, 29⟩⟩,
   ⟨⟨2024, 2, 28⟩, ⟨2024, 3, 15⟩, ⟨2024, 2, 28⟩, ⟨2024, 3, 15⟩⟩]

/-- Periods of the regression-test schedule (start 2023-03-15, end
2024-01-01, quarterly, SHORT_FINAL, roll day 15, no holidays), used as the
witness input for the amended claim C2. -/
def c2WitnessPeriods : List SchedulePeriod :=
  [⟨⟨2023, 3, 15⟩, ⟨2023, 6, 15⟩, ⟨2023, 3, 15⟩, ⟨2023, 6, 15⟩⟩,
   ⟨⟨2023, 6, 15⟩, ⟨2023, 9, 15⟩, ⟨2023, 6, 15⟩, ⟨2023, 9, 15⟩⟩,
   ⟨⟨2023, 9, 15⟩, ⟨2023, 12, 15⟩, ⟨2023, 9, 15⟩, ⟨2023, 12, 15⟩⟩,
   ⟨⟨2023, 12, 15⟩, ⟨2024, 1, 1⟩, ⟨2023, 12, 15⟩, ⟨2024, 1, 1⟩⟩]

/-! ### Discounting curve (discounting_curve.py)

The result type separates the three observable outcomes of calling
`DiscountingCurve.discountFactor`: an exception propagating out of the call,
the Python value None (the function body falls through without a return
statement), and an actual numeric value.  Of the four linear methods, only
LINEAR_ON_LOG_OF_DISCOUNT_FACTORS contains a return statement; the
LINEAR_ON_RATES and LINEAR_ON_LOG_OF_RATES branches crash on
`for i in len(self.dfs)` (iterating an int) before producing anything; the
spline methods match no branch at all.
-/

inductive DFResult where
  | raises : DFResult
  | returnsNone : DFResult
  | value : ℝ → DFResult

/-- Tests whether a discount-factor call produced an actual numeric value. -/
def DFResult.isValue : DFResult → Bool
  | .value _ => true
  | _ => false

inductive DiscountingInterpolationMethod where
  | linearOnDiscountFactors
  | linearOnRates
  | linearOnLogOfRates
  | linearOnLogOfDiscountFactors
  | naturalCubicSpline
  | besselCubicSpline
  | financialCubicSpline
  | quarticSpline
deriving DecidableEq

/-- Embeds `LinearInterpolator.__find_index` on a date-valued axis. -/
def findBracketD (x : Date) : List Date → Nat → Option Nat
  | b0 :: b1 :: rest, i =>
    if b0.ble x && x.blt b1 then some i else findBracketD x (b1 :: rest) (i + 1)
  | _, _ => Option.none

/-- Embeds `LinearInterpolator.__call__` on a date-valued axis: timedelta
deltas are converted to day counts divided by 365 on both the slope
denominator and the multiplier, per `__convert_to_float`. -/
noncomputable def interpAtD (xs : List Date) (ys : List ℝ) (extrapolate : Bool)
    (x : Date) : Option ℝ :=
  match xs with
  | [] => Option.none
  | x0 :: _ =>
    if x.blt x0 then
      if extrapolate then ys[0]? else Option.none
    else
      match findBracketD x xs 0 with
      | some i =>
        match xs[i]?, xs[i + 1]?, ys[i]?, ys[i + 1]? with
        | some xi, some xi1, some yi, some yi1 =>
            some (yi + ((daysBetween xi x : ℝ) / 365)
              * ((yi1 - yi) / ((daysBetween xi xi1 : ℝ) / 365)))
        | _, _, _, _ => Option.none
      | Option.none =>
        if extrapolate then ys.getLast? else Option.none

/-- Embeds the attrs sortedness validator on an axis of dates. -/
def sortedNonDecD : List Date → Bool
  | a :: b :: rest => !(b.blt a) && sortedNonDecD (b :: rest)
  | _ => true

/-- Embeds constructing a LinearInterpolator on date knots (as
`discountFactor` does, with the extrapolate flag left at its default False)
and querying it. -/
noncomputable def linInterpD (xs : List Date) (ys : List ℝ) (extrapolate : Bool)
    (x : Date) : Option ℝ :=
  if xs.isEmpty then Option.none
  else if !sortedNonDecD xs then Option.none
  else if ys.length ≠ xs.length then Option.none
  else interpAtD xs ys extrapolate x

/-- Embeds `DiscountingCurve.discountFactor`.  The first branch computes the
interpolated discount factors and the ratio `result` but the function has no
return statement on that path, so a successful branch evaluation returns the
Python value None.  The two rate branches raise before producing anything.
Only the LINEAR_ON_LOG_OF_DISCOUNT_FACTORS branch returns a value.  Spline
methods fall through every branch and silently return None. -/
noncomputable def discountFactor (dates : List Date) (dfs : List ℝ)
    (m : DiscountingInterpolationMethod) (t T : Date) : DFResult :=
  match m with
  | .linearOnDiscountFactors =>
    match linInterpD dates dfs false t, linInterpD dates dfs false T with
    | some _, some _ => .returnsNone
    | _, _ => .raises
  | .linearOnRates => .raises
  | .linearOnLogOfRates => .raises
  | .linearOnLogOfDiscountFactors =>
    match linInterpD dates (dfs.map Real.log) false t,
          linInterpD dates (dfs.map Real.log) false T with
    | some logPt, some logPT => .value (Real.exp logPT / Real.exp logPt)
    | _, _ => .raises
  | _ => .returnsNone

/-! ### Vanna-Volga model (vanna_volga.py)

The quantities entering the claims are closed-form real expressions; the
per-expiry machinery (quote buckets, discount curves, the inverse normal
CDF inside alpha) is abstracted by passing the forward, alpha, the vols and
the year fraction as real parameters.  Parameter names and order follow the
source, which is the crux of claim C3: `d_plus`/`d_minus` declare
`(fwd, k, tau, sigma)` while every call site passes `(fwd, k, sigma, tau)`.
-/

/-- Embeds `VannaVolga.d_plus` with its declared parameter order
(fwd, k, tau, sigma). -/
noncomputable def d_plus (fwd k tau sigma : ℝ) : ℝ :=
  (Real.log (fwd / k) + tau * sigma ^ 2 / 2) / (sigma * Real.sqrt tau)

/-- Embeds `VannaVolga.d_minus` with its declared parameter order. -/
noncomputable def d_minus (fwd k tau sigma : ℝ) : ℝ :=
  (Real.log (fwd / k) - tau * sigma ^ 2 / 2) / (sigma * Real.sqrt tau)

/-- Embeds the call-site product
`d_plus(fwd, k, sigma_2, tau) * d_minus(fwd, k, sigma_2, tau)` appearing in
`second_order_approximation` (and, at k_1 and k_3, in `d2_k`): the ATM vol
is passed in the `tau` slot and the year fraction in the `sigma` slot. -/
noncomputable def dPlusDMinusCallSite (fwd k sigmaAtm tau : ℝ) : ℝ :=
  d_plus fwd k sigmaAtm tau * d_minus fwd k sigmaAtm tau

/-- Modelled from the spec: the standard Black-Scholes d+ term with sigma in
the volatility slot and tau in the time slot. -/
noncomputable def dPlusSpec (fwd k sigma tau : ℝ) : ℝ :=
  (Real.log (fwd / k) + tau * sigma ^ 2 / 2) / (sigma * Real.sqrt tau)

/-- Modelled from the spec: the standard Black-Scholes d- term. -/
noncomputable def dMinusSpec (fwd k sigma tau : ℝ) : ℝ :=
  (Real.log (fwd / k) - tau * sigma ^ 2 / 2) / (sigma * Real.sqrt tau)

/-- Embeds `VannaVolga.k_25d_put` as the source computes it: the alpha term
enters with a positive sign, identical to `k_25d_call`. -/
noncomputable def k_25d_put (fwd alpha sigma25P tau : ℝ) : ℝ :=
  fwd * Real.exp (alpha * sigma25P * Real.sqrt tau
    + 0.5 * sigma25P ^ 2 * tau)

/-- Embeds `VannaVolga.k_25d_call`. -/
noncomputable def k_25d_call (fwd alpha sigma25C tau : ℝ) : ℝ :=
  fwd * Real.exp (alpha * sigma25C * Real.sqrt tau
    + 0.5 * sigma25C ^ 2 * tau)

/-- Modelled from the spec: the 25-delta put strike with the negated alpha
term, `F exp(-alpha sigma25P sqrt(tau) + 0.5 sigma25P^2 tau)`. -/
noncomputable def k25dPutSpec (fwd alpha sigma25P tau : ℝ) : ℝ :=
  fwd * Real.exp (-alpha * sigma25P * Real.sqrt tau
    + 0.5 * sigma25P ^ 2 * tau)

/-- Embeds `VannaVolga.y_1`. -/
noncomputable def y_1 (k1 k2 k3 k : ℝ) : ℝ :=
  (Real.log (k2 / k) * Real.log (k3 / k))
    / (Real.log (k3 / k1) * Real.log (k2 / k1))

/-- Embeds `VannaVolga.y_2`. -/
noncomputable def y_2 (k1 k2 k3 k : ℝ) : ℝ :=
  (Real.log (k / k1) * Real.log (k3 / k))
    / (Real.log (k2 / k1) * Real.log (k3 / k2))

/-- Embeds `VannaVolga.y_3`. -/
noncomputable def y_3 (k1 k2 k3 k : ℝ) : ℝ :=
  (Real.log (k / k1) * Real.log (k / k2))
    / (Real.log (k3 / k1) * Real.log (k3 / k2))

/-- Embeds the weighted sum computed in the body of
`VannaVolga.first_order_approximation` after its expiry guard, with the
three strikes and three vols of the expiry as parameters:
`y_1 sigma_put + y_2 sigma_atm + y_3 sigma_call`. -/
noncomputable def firstOrderSmileSum
    (k1 k2 k3 sigma1 sigma2 sigma3 k : ℝ) : ℝ :=
  y_1 k1 k2 k3 k * sigma1 + y_2 k1 k2 k3 k * sigma2 + y_3 k1 k2 k3 k * sigma3

/-- Embeds the membership test `t_exp in self.exp_dates`, where the
`exp_dates` property is `np.array(self.__stdl.keys())`: calling np.array on
a dict_keys view (not on a list of it) produces a 0-dimensional object
array whose single element is the view itself, and ndarray containment
evaluates `(arr == t_exp).any()`, comparing the query date against that one
dict_keys object.  The comparison is False, so membership is False for
every date, including the calibrated expiries themselves.  The first
parameter carries the calibrated expiry dates of the straddle bucket; the
numpy semantics make the result independent of it. -/
def expDatesContains (expiries : List Date) (t : Date) : Bool :=
  match expiries, t with
  | _, _ => false

/-- Embeds `VannaVolga.first_order_approximation` including its guard
`if t_exp not in self.exp_dates: raise ValueError(...)`; `none` models the
raised error, which the 0-dimensional `exp_dates` array triggers for every
expiry. -/
noncomputable def first_order_approximation (expiries : List Date)
    (t_exp : Date) (k1 k2 k3 sigma1 sigma2 sigma3 k : ℝ) : Option ℝ :=
  if expDatesContains expiries t_exp then
    some (firstOrderSmileSum k1 k2 k3 sigma1 sigma2 sigma3 k)
  else Option.none

/-! ### Helper lemmas -/

theorem Date.eq_of_ble_of_not_blt {a b : Date} (h1 : a.ble b = true)
    (h2 : a.blt b = false) : a = b := by
  rw [Date.ble, h2] at h1
  simpa using h1

theorem addBusDays_isHol_false (isHol : Date → Bool) :
    ∀ fuel (len : Int) (start e : Date),
      addBusDays isHol fuel len start = some e → len ≠ 0 →
      isHol e = false := by
  intro fuel
  induction fuel with
  | zero => intro len start e h _; simp [addBusDays] at h
  | succ fuel ih =>
    intro len start e h hlen
    rw [addBusDays, if_neg hlen] at h
    by_cases hh : isHol (addDays start (if 0 < len then 1 else -1)) = true
    · rw [if_pos hh] at h
      exact ih len _ e h hlen
    · rw [if_neg hh] at h
      by_cases hz : len + (if 0 < len then -1 else 1) = 0
      · rw [hz] at h
        match fuel, h with
        | fuel + 1, h =>
          rw [addBusDays, if_pos rfl] at h
          cases h
          simpa using hh
      · exact ih _ _ e h hz

theorem sortedNonDecQ_of_pairwise :
    ∀ xs : List ℚ, List.Pairwise (· < ·) xs → sortedNonDecQ xs = true := by
  intro xs
  induction xs with
  | nil => intro _; rfl
  | cons a l ih =>
    intro hp
    cases l with
    | nil => rfl
    | cons b r =>
      rw [sortedNonDecQ]
      have hab : a < b := (List.pairwise_cons.mp hp).1 b (by simp)
      have h1 : (b < a : Bool) = false := by
        simp only [decide_eq_false_iff_not]
        exact not_lt.mpr (le_of_lt hab)
      rw [h1, ih (List.pairwise_cons.mp hp).2]
      rfl

theorem head_le_get (a : ℚ) (l : List ℚ)
    (h : List.Pairwise (· < ·) (a :: l)) (j : Nat)
    (hj : j < (a :: l).length) : a ≤ (a :: l).get ⟨j, hj⟩ := by
  match j with
  | 0 => exact le_refl a
  | j + 1 =>
    have hmem : (l.get ⟨j, by simpa using hj⟩) ∈ l := List.get_mem l _ _
    exact le_of_lt ((List.pairwise_cons.mp h).1 _ hmem)

theorem findBracketQ_at_get :
    ∀ (xs : List ℚ) (i : Nat) (hi : i < xs.length) (k : Nat),
      List.Pairwise (· < ·) xs →
      findBracketQ (xs.get ⟨i, hi⟩) xs k
        = if i + 1 < xs.length then some (k + i) else Option.none := by
  intro xs
  induction xs with
  | nil => intro i hi; simp at hi
  | cons a l ih =>
    intro i hi k hp
    cases l with
    | nil =>
      match i, hi with
      | 0, _ => simp [findBracketQ]
    | cons b r =>
      match i, hi with
      | 0, _ =>
        have hab : a < b := (List.pairwise_cons.mp hp).1 b (by simp)
        rw [findBracketQ, if_pos ⟨le_refl a, hab⟩]
        simp
      | j + 1, hi =>
        have hx : ((a :: b :: r).get ⟨j + 1, hi⟩) = (b :: r).get ⟨j, by simpa using hi⟩ := rfl
        have hbx : b ≤ (b :: r).get ⟨j, by simpa using hi⟩ :=
          head_le_get b r (List.pairwise_cons.mp hp).2 j (by simpa using hi)
        rw [findBracketQ, hx, if_neg (by
          rintro ⟨-, hlt⟩
          exact absurd hlt (not_lt.mpr hbx))]
        rw [ih j (by simpa using hi) (k + 1) (List.pairwise_cons.mp hp).2]
        have hlen : ((a :: b :: r).length = (b :: r).length + 1) := rfl
        by_cases hc : j + 1 < (b :: r).length
        · rw [if_pos hc, if_pos (by simpa [Nat.succ_lt_succ_iff] using hc)]
          congr 1
          omega
        · rw [if_neg hc, if_neg (by simpa [Nat.succ_lt_succ_iff] using hc)]

theorem sfLoop_spec (isHol : Date → Bool) (bdc : BusinessDayConvention)
    (afuel : Nat) (fn : Int) (fu : PeriodUnit) (roll : Int) (lastReg : Date) :
    ∀ fuel current l fin,
      sfLoop isHol bdc afuel fn fu roll lastReg fuel current = some (l, fin) →
      contiguousB l = true ∧
      (∀ p, l.head? = some p → p.ustart = current) ∧
      (l = [] → fin = current ∧ current.blt lastReg = false) ∧
      (∀ q, l.getLast? = some q → q.uend = fin) := by
  intro fuel
  induction fuel with
  | zero => intro current l fin h; simp [sfLoop] at h
  | succ fuel ih =>
    intro current l fin h
    rw [sfLoop] at h
    by_cases hb : current.blt lastReg = true
    · rw [if_pos hb] at h
      rw [Option.bind_eq_some] at h
      obtain ⟨ue0, hue0, h⟩ := h
      rw [Option.bind_eq_some] at h
      obtain ⟨ue, hue, h⟩ := h
      rw [Option.bind_eq_some] at h
      obtain ⟨adjS, hadjS, h⟩ := h
      rw [Option.bind_eq_some] at h
      obtain ⟨adjE, hadjE, h⟩ := h
      by_cases hv : validRollDay roll ue = true
      · rw [if_pos hv, Option.bind_eq_some] at h
        obtain ⟨⟨rest, fin'⟩, hrec, hout⟩ := h
        have hl : (⟨current, ue, adjS, adjE⟩ : SchedulePeriod) :: rest = l := by
          injection hout with h'
          exact congrArg Prod.fst h'
        have hf : fin' = fin := by
          injection hout with h'
          exact congrArg Prod.snd h'
        subst hl
        subst hf
        obtain ⟨ihc, ihhead, ihnil, ihlast⟩ := ih ue rest fin' hrec
        refine ⟨?_, ?_, ?_, ?_⟩
        · cases rest with
          | nil => rfl
          | cons b r =>
            have hb' : b.ustart = ue := ihhead b rfl
            rw [contiguousB]
            have huend : (⟨current, ue, adjS, adjE⟩ : SchedulePeriod).uend = ue := rfl
            rw [huend, hb']
            simp [ihc]
        · intro p hp
          have : p = ⟨current, ue, adjS, adjE⟩ := by
            simpa using hp.symm
          rw [this]
        · intro hnil; cases hnil
        · intro q hq
          cases rest with
          | nil =>
            have hq' : q = ⟨current, ue, adjS, adjE⟩ := by
              simpa using hq.symm
            have hfin : fin' = ue := (ihnil rfl).1
            rw [hq', hfin]
          | cons b r =>
            rw [List.getLast?_cons_cons] at hq
            exact ihlast q hq
      · rw [if_neg hv] at h
        cases h
    · rw [if_neg hb] at h
      have hl : l = [] ∧ fin = current := by
        have h' : (([] : List SchedulePeriod), current) = (l, fin) := by
          simpa using h
        exact ⟨(congrArg Prod.fst h').symm, (congrArg Prod.snd h').symm⟩
      obtain ⟨rfl, rfl⟩ := hl
      refine ⟨rfl, ?_, ?_, ?_⟩
      · intro p hp; simp at hp
      · intro _
        exact ⟨rfl, by simpa using hb⟩
      · intro q hq; simp at hq

/-! ### Claim theorems -/

/-- C1: the claim states that the split-year ACT/ACT year fraction uses
y2 - y1 - 1 complete intermediate years, so that the partial first and last
years are not double-counted.  The source `ActualActual.year_fraction`
instead adds the plain difference y2 - y1: between 2023-12-31 and 2024-01-01
it returns 366/365 (about a full year for a one-day interval) where the
claim's formula gives 1/365.  The code contradicts its own docstring
semantics (actual days between the dates) and the ISDA reference convention
the spec defers to, so this is a code bug. -/
theorem c1_act_act_whole_year_term :
    actActYearFraction ⟨2023, 12, 31⟩ ⟨2024, 1, 1⟩ = 366 / 365 ∧
    actActClaimFormula ⟨2023, 12, 31⟩ ⟨2024, 1, 1⟩ = 1 / 365 ∧
    (366 / 365 : ℚ) ≠ 1 / 365 := by
  refine ⟨?_, ?_, by norm_num⟩
  · unfold actActYearFraction
    rw [if_neg (by decide)]
    rw [show daysBetween ⟨2023, 12, 31⟩ ⟨(2023 : Int) + 1, 1, 1⟩ = 1 from by decide]
    rw [show daysBetween ⟨(2024 : Int), 1, 1⟩ ⟨2024, 1, 1⟩ = 0 from by decide]
    rw [show lengthOfYear 2023 = 365 from by decide]
    rw [show lengthOfYear 2024 = 366 from by decide]
    norm_num
  · unfold actActClaimFormula
    rw [show daysBetween ⟨2023, 12, 31⟩ ⟨(2023 : Int) + 1, 1, 1⟩ = 1 from by decide]
    rw [show daysBetween ⟨(2024 : Int), 1, 1⟩ ⟨2024, 1, 1⟩ = 0 from by decide]
    rw [show lengthOfYear 2023 = 365 from by decide]
    rw [show lengthOfYear 2024 = 366 from by decide]
    norm_num

/-- C2 counterexample: a quarterly SHORT_FINAL schedule from 2022-11-30 to
2024-03-15 with roll convention DAY_30 builds successfully, but its regular
walk lands on 2024-02-29 (a valid DAY_30 roll day in a leap year) while the
last regular end date computed by loop_forward is 2024-02-28, so the final
stub period starts one day before the previous period ends: consecutive
periods are not contiguous. -/
theorem c2_schedule_contiguity_counterexample :
    buildSchedulePeriods noHols 40 50 .noAdjust 3 .months (some 30)
        .shortFinal ⟨2022, 11, 30⟩ ⟨2024, 3, 15⟩ Option.none Option.none
      = some c2OvershootPeriods ∧
    contiguousB c2OvershootPeriods = false := by
  constructor
  · decide
  · decide

/-- C2 (amended): for a SHORT_FINAL schedule whose build succeeds (with the
start date at or before the last regular end date, as pre_validation
enforces), the built period list is non-empty, its first period's
unadjusted start is the schedule start date, its last period's unadjusted
end is the schedule end date, and all consecutive periods are contiguous
except possibly at the junction into the final stub period, where the
regular walk can overshoot the last regular end date (the counterexample);
the stub conventions with no builder (NONE, LONG_INITIAL, LONG_FINAL) leave
the list empty. -/
theorem c2_short_final_build_invariants (isHol : Date → Bool)
    (afuel fuel : Nat) (bdc : BusinessDayConvention) (fn : Int)
    (fu : PeriodUnit) (roll : Int) (start firstReg endD lastReg : Date)
    (ps : List SchedulePeriod)
    (h : buildShortFinal isHol afuel fuel bdc fn fu roll start firstReg endD
          lastReg = some ps)
    (hle : start.ble lastReg = true) :
    ps.isEmpty = false ∧
    ps.head?.map SchedulePeriod.ustart = some start ∧
    ps.getLast?.map SchedulePeriod.uend = some endD ∧
    contiguousB ps.dropLast = true := by
  rw [buildShortFinal] at h
  have hc0 : (if start ≠ firstReg then start else firstReg) = start := by
    by_cases hsf : start ≠ firstReg
    · rw [if_pos hsf]
    · rw [if_neg hsf]
      exact (not_ne_iff.mp hsf).symm
  rw [hc0] at h
  cases hloop : sfLoop isHol bdc afuel fn fu roll lastReg fuel start with
  | none => rw [hloop] at h; cases h
  | some rf =>
    obtain ⟨regs, fin⟩ := rf
    rw [hloop] at h
    cases hadj1 : adjustO isHol afuel bdc lastReg with
    | none => rw [hadj1] at h; cases h
    | some adjLR =>
      cases hadj2 : adjustO isHol afuel bdc endD with
      | none => rw [hadj1, hadj2] at h; cases h
      | some adjE =>
        rw [hadj1, hadj2] at h
        have hps : regs ++ [(⟨lastReg, endD, adjLR, adjE⟩ : SchedulePeriod)] = ps := by
          simpa using h
        obtain ⟨sc, shead, snil, slast⟩ :=
          sfLoop_spec isHol bdc afuel fn fu roll lastReg fuel start regs fin hloop
        subst hps
        refine ⟨?_, ?_, ?_, ?_⟩
        · cases regs <;> rfl
        · cases regs with
          | nil =>
            have hse : start = lastReg := by
              obtain ⟨-, hnb⟩ := snil rfl
              exact Date.eq_of_ble_of_not_blt hle hnb
            simp [hse]
          | cons p t =>
            have hps' : p.ustart = start := shead p rfl
            simp [hps']
        · rw [List.getLast?_concat]
          rfl
        · rw [List.dropLast_concat]
          exact sc

/-- C2 witness: the amended theorem applied to the regression-test schedule
(start 2023-03-15, end 2024-01-01, quarterly, SHORT_FINAL, roll day 15). -/
theorem c2_short_final_build_invariants_witness :
    c2WitnessPeriods.isEmpty = false ∧
    c2WitnessPeriods.head?.map SchedulePeriod.ustart = some ⟨2023, 3, 15⟩ ∧
    c2WitnessPeriods.getLast?.map SchedulePeriod.uend = some ⟨2024, 1, 1⟩ ∧
    contiguousB c2WitnessPeriods.dropLast = true :=
  c2_short_final_build_invariants noHols 40 50 .noAdjust 3 .months 15
    ⟨2023, 3, 15⟩ ⟨2023, 3, 15⟩ ⟨2024, 1, 1⟩ ⟨2023, 12, 15⟩ c2WitnessPeriods
    (by decide) (by decide)

/-- C3: every d+ and d- entering the Vanna-Volga second-order formula is
computed by calling `d_plus(fwd, k, sigma_2, tau)` against the declared
signature `d_plus(fwd, k, tau, sigma)`, so the ATM volatility lands in the
time slot and the year fraction in the volatility slot.  At fwd = k = 1,
sigma_atm = 1, tau = 4 the call-site product is -4 while the standard
Black-Scholes product the claim (and the spec) prescribes is -1. -/
theorem c3_d_plus_swapped_arguments :
    dPlusDMinusCallSite 1 1 1 4 = -4 ∧
    dPlusSpec 1 1 1 4 * dMinusSpec 1 1 1 4 = -1 ∧
    ((-4 : ℝ) ≠ -1) := by
  have hsqrt4 : Real.sqrt 4 = 2 := by
    rw [show (4 : ℝ) = 2 ^ 2 by norm_num, Real.sqrt_sq (by norm_num : (0 : ℝ) ≤ 2)]
  refine ⟨?_, ?_, by norm_num⟩
  · norm_num [dPlusDMinusCallSite, d_plus, d_minus, Real.sqrt_one, Real.log_one]
  · rw [dPlusSpec, dMinusSpec, hsqrt4]
    norm_num [Real.log_one]

/-- C4: the source `k_25d_put` applies alpha with a positive sign, identical
to `k_25d_call`, where the claim (and the spec) require the negated alpha
term.  At fwd = 1, alpha = 1, sigma25P = 1, tau = 1 the code returns
exp(3/2) while the claimed formula gives exp(-1/2), and these differ. -/
theorem c4_k_25d_put_alpha_sign :
    k_25d_put 1 1 1 1 = Real.exp (3 / 2) ∧
    k25dPutSpec 1 1 1 1 = Real.exp (-(1 / 2)) ∧
    Real.exp (3 / 2) ≠ Real.exp (-(1 / 2)) := by
  refine ⟨?_, ?_, ?_⟩
  · rw [k_25d_put, Real.sqrt_one]
    norm_num
  · rw [k25dPutSpec, Real.sqrt_one]
    norm_num
  · exact Real.exp_injective.ne (by norm_num)

/-- C5: for the LINEAR_ON_DISCOUNT_FACTORS method, `discountFactor` computes
the interpolated ratio into a local variable but the function body has no
return statement on that path, so the call never produces a numeric value
(it returns the Python value None, or propagates an interpolation error);
in particular discountFactor(t, t) does not return 1.  This contradicts the
claim for every curve, so the missing return is a code bug. -/
theorem c5_linear_on_dfs_returns_no_value (dates : List Date) (dfs : List ℝ)
    (t T : Date) :
    (discountFactor dates dfs .linearOnDiscountFactors t T).isValue = false := by
  rw [discountFactor]
  cases linInterpD dates dfs false t <;> cases linInterpD dates dfs false T <;> rfl

/-- C6: `add_months` computes the target month as
`(month + months) % 13 + year_roll`, which produces the invalid month 14
for January plus 24 months; the decrement-day retry loop then walks the day
to zero and raises, so `add_period(2023-01-15, 24, MONTHS)` fails for every
recursion budget instead of returning 2025-01-15.  The clamping behaviour
the claim describes does hold where the month arithmetic is in range
(2023-01-31 plus one month gives 2023-02-28). -/
theorem c6_add_months_month_overflow :
    (∀ fuel, addPeriodO fuel noHols 24 PeriodUnit.months ⟨2023, 1, 15⟩
      = Option.none) ∧
    addPeriodO 40 noHols 1 PeriodUnit.months ⟨2023, 1, 31⟩
      = some ⟨2023, 2, 28⟩ := by
  constructor
  · have key : ∀ fuel (d : Int), 1 ≤ d →
        addMonths fuel ⟨2023, 1, d⟩ 24 = Option.none := by
      intro fuel
      induction fuel with
      | zero => intro d _; rfl
      | succ fuel ih =>
        intro d hd
        rw [addMonths]
        have hm : (⟨2023, 1, d⟩ : Date).month = 1 := rfl
        have hy : (⟨2023, 1, d⟩ : Date).year = 2023 := rfl
        have hdp : (⟨2023, 1, d⟩ : Date).day = d := rfl
        rw [hm, hy, hdp]
        have e1 : (((1 : Int) + 24 - 1).fdiv 12) = 2 := by decide
        have e2 : (((1 : Int) + 24).emod 13) = 12 := by decide
        rw [e1, e2]
        have hval : validDate ((2023 : Int) + 2) (12 + 2) d = false := by
          rw [validDate]
          simp
        rw [hval]
        simp only [Bool.false_eq_true, if_false]
        by_cases h2 : (1 : Int) ≤ d - 1
        · rw [if_pos h2]
          exact ih (d - 1) h2
        · rw [if_neg h2]
    intro fuel
    exact key fuel 15 (by norm_num)
  · decide

/-- C7 counterexample: a LinearInterpolator on knots [1, 2] with values
[5, 7] and extrapolation disabled raises a range error when queried at the
last knot x = 2 (the bracketing scan never matches `xs[i] <= x < xs[i+1]`
and falls into the BACK branch), instead of returning 7 as the claim
states; with extrapolation enabled it does return 7. -/
theorem c7_last_knot_range_error :
    linInterpQ [1, 2] [5, 7] false 2 = Option.none ∧
    linInterpQ [1, 2] [5, 7] true 2 = some 7 := by
  constructor <;> norm_num [linInterpQ, sortedNonDecQ, interpAtQ, findBracketQ]

/-- C7 (amended): a LinearInterpolator on strictly increasing knots
evaluated at knot i returns exactly that knot's y-value whenever i is not
the last index, whatever the extrapolation flag; at the last knot it
returns the last y-value when extrapolation is enabled and raises a range
error when it is disabled. -/
theorem c7_linear_interpolator_knot (xs ys : List ℚ) (e : Bool) (i : Nat)
    (hs : List.Chain' (· < ·) xs) (hlen : ys.length = xs.length)
    (hi : i < xs.length) :
    linInterpQ xs ys e (xs.get ⟨i, hi⟩)
      = (if i + 1 < xs.length then ys[i]?
         else if e then ys.getLast? else Option.none) := by
  have hp : List.Pairwise (· < ·) xs := List.chain'_iff_pairwise.mp hs
  have h1 : xs.isEmpty = false := by
    cases xs
    · simp at hi
    · rfl
  have h2 : sortedNonDecQ xs = true := sortedNonDecQ_of_pairwise xs hp
  rw [linInterpQ, h1, h2]
  rw [if_neg (by simp), if_neg (by simp), if_neg (not_ne_iff.mpr hlen)]
  cases xs with
  | nil => simp at hi
  | cons x0 xs' =>
    rw [interpAtQ]
    have hge : x0 ≤ (x0 :: xs').get ⟨i, hi⟩ := head_le_get x0 xs' hp i hi
    rw [if_neg (not_lt.mpr hge)]
    rw [findBracketQ_at_get (x0 :: xs') i hi 0 hp]
    by_cases hc : i + 1 < (x0 :: xs').length
    · rw [if_pos hc, if_pos hc]
      have hiy : i < ys.length := by rw [hlen]; exact hi
      have hiy1 : i + 1 < ys.length := by rw [hlen]; exact hc
      have g1 : (x0 :: xs')[i]? = some ((x0 :: xs')[i]) :=
        List.getElem?_eq_getElem hi
      have g2 : (x0 :: xs')[i + 1]? = some ((x0 :: xs')[i + 1]) :=
        List.getElem?_eq_getElem hc
      have g3 : ys[i]? = some (ys[i]) := List.getElem?_eq_getElem hiy
      have g4 : ys[i + 1]? = some (ys[i + 1]) := List.getElem?_eq_getElem hiy1
      rw [Nat.zero_add]
      simp only [g1, g2, g3, g4]
      simp
    · rw [if_neg hc, if_neg hc]

/-- C7 witness: the amended theorem applied to knots [1, 2] with values
[5, 7] at the interior knot index 0 without extrapolation. -/
theorem c7_linear_interpolator_knot_witness :
    linInterpQ [1, 2] [5, 7] false (([1, 2] : List ℚ).get ⟨0, by norm_num⟩)
      = (if 0 + 1 < ([1, 2] : List ℚ).length then ([5, 7] : List ℚ)[0]?
         else if false then ([5, 7] : List ℚ).getLast? else Option.none) :=
  c7_linear_interpolator_knot [1, 2] [5, 7] false 0
    (by norm_num [List.chain'_cons]) (by norm_num) (by norm_num)

/-- C8: the guard of `first_order_approximation` tests membership in
`exp_dates`, which is `np.array(self.__stdl.keys())` — a 0-dimensional
object array — so the test is False for every expiry and the method raises
the "not supplied during VV calibration" ValueError even for the calibrated
expiries, never returning sigma_atm; meanwhile the weighted sum in the
unreachable remainder of the method does collapse to exactly sigma_atm at
the ATM strike K2 for positive pairwise-distinct strikes (weights
y1 = 0, y2 = 1, y3 = 0), so the claim's arithmetic is what the code
intends, and the guard is the slip. -/
theorem c8_first_order_guard_always_raises (expiries : List Date)
    (t_exp : Date) (k1 k2 k3 s1 s2 s3 : ℝ)
    (h1 : 0 < k1) (h2 : 0 < k2) (h3 : 0 < k3)
    (h12 : k1 ≠ k2) (h13 : k1 ≠ k3) (h23 : k2 ≠ k3) :
    first_order_approximation expiries t_exp k1 k2 k3 s1 s2 s3 k2
      = Option.none ∧
    firstOrderSmileSum k1 k2 k3 s1 s2 s3 k2 = s2 := by
  refine ⟨rfl, ?_⟩
  have hlog0 : Real.log (k2 / k2) = 0 := by
    rw [div_self (ne_of_gt h2), Real.log_one]
  have hl21 : Real.log (k2 / k1) ≠ 0 := by
    have hpos : 0 < k2 / k1 := div_pos h2 h1
    intro h0
    rcases Real.log_eq_zero.mp h0 with h | h | h
    · exact absurd h (ne_of_gt hpos)
    · rw [div_eq_one_iff_eq (ne_of_gt h1)] at h
      exact h12 h.symm
    · linarith
  have hl32 : Real.log (k3 / k2) ≠ 0 := by
    have hpos : 0 < k3 / k2 := div_pos h3 h2
    intro h0
    rcases Real.log_eq_zero.mp h0 with h | h | h
    · exact absurd h (ne_of_gt hpos)
    · rw [div_eq_one_iff_eq (ne_of_gt h2)] at h
      exact h23 h.symm
    · linarith
  have hy1 : y_1 k1 k2 k3 k2 = 0 := by
    rw [y_1, hlog0, zero_mul, zero_div]
  have hy3 : y_3 k1 k2 k3 k2 = 0 := by
    rw [y_3, hlog0, mul_zero, zero_div]
  have hy2 : y_2 k1 k2 k3 k2 = 1 := by
    rw [y_2]
    exact div_self (mul_ne_zero hl21 hl32)
  rw [firstOrderSmileSum, hy1, hy2, hy3]
  ring

/-- C8 witness: an expiry that is itself the (only) calibrated expiry of
the straddle bucket still hits the raising branch, while the unreachable
weighted sum at strikes 1, 2, 4 with vols 5, 6, 7 gives the ATM vol 6. -/
theorem c8_first_order_guard_always_raises_witness :
    first_order_approximation [⟨2024, 6, 15⟩] ⟨2024, 6, 15⟩ 1 2 4 5 6 7 2
      = Option.none ∧
    firstOrderSmileSum 1 2 4 5 6 7 2 = 6 :=
  c8_first_order_guard_always_raises [⟨2024, 6, 15⟩] ⟨2024, 6, 15⟩ 1 2 4 5 6 7
    (by norm_num) (by norm_num) (by norm_num) (by norm_num) (by norm_num)
    (by norm_num)

/-- C9: for every spline interpolation method, `discountFactor` matches no
branch of the method dispatch and the function silently returns the Python
value None; it does not raise an explicit not-implemented error as the
claim (and the spec's error-handling design) state, and sibling modules in
the codebase do raise NotImplementedError on their unimplemented paths. -/
theorem c9_spline_methods_silently_return_none (dates : List Date)
    (dfs : List ℝ) (t T : Date) :
    discountFactor dates dfs .naturalCubicSpline t T = DFResult.returnsNone ∧
    discountFactor dates dfs .besselCubicSpline t T = DFResult.returnsNone ∧
    discountFactor dates dfs .financialCubicSpline t T = DFResult.returnsNone ∧
    discountFactor dates dfs .quarticSpline t T = DFResult.returnsNone :=
  ⟨rfl, rfl, rfl, rfl⟩

/-- C10: whenever `adjust` returns under the FOLLOWING, PRECEDING,
MODIFIED_FOLLOWING or MODIFIED_PRECEDING convention, the returned date is a
business day of the calendar: a non-holiday input is returned unchanged,
and a holiday input is replaced by the next or previous date on which the
business-day walk of `add_period` stopped, which is never a holiday. -/
theorem c10_adjust_returns_business_day (isHol : Date → Bool) (fuel : Nat)
    (bdc : BusinessDayConvention) (d r : Date)
    (hconv : bdc = .following ∨ bdc = .preceding ∨
      bdc = .modifiedFollowing ∨ bdc = .modifiedPreceding)
    (h : adjustO isHol fuel bdc d = some r) :
    isHol r = false := by
  rw [adjustO] at h
  by_cases hd : isHol d = true
  · rw [if_pos hd] at h
    cases h1 : addBusDays isHol fuel 1 d with
    | none => rw [h1] at h; cases h
    | some fol =>
      cases h2 : addBusDays isHol fuel (-1) d with
      | none => rw [h1, h2] at h; cases h
      | some pre =>
        rw [h1, h2] at h
        have hfol : isHol fol = false :=
          addBusDays_isHol_false isHol fuel 1 d fol h1 (by norm_num)
        have hpre : isHol pre = false :=
          addBusDays_isHol_false isHol fuel (-1) d pre h2 (by norm_num)
        rcases hconv with hc | hc | hc | hc <;> subst hc <;> simp only [] at h
        · cases h; exact hfol
        · cases h; exact hpre
        · split at h
          · cases h; exact hpre
          · cases h; exact hfol
        · split at h
          · cases h; exact hfol
          · cases h; exact hpre
  · rw [if_neg hd] at h
    cases h
    simpa using hd

/-- C10 witness: adjusting Saturday 2023-12-23 under FOLLOWING on a
weekend-only calendar lands on Monday 2023-12-25, a business day of that
calendar. -/
theorem c10_adjust_returns_business_day_witness :
    weekendOnly ⟨2023, 12, 25⟩ = false :=
  c10_adjust_returns_business_day weekendOnly 10 .following ⟨2023, 12, 23⟩
    ⟨2023, 12, 25⟩ (Or.inl rfl) (by decide)

end OptionsLib
